import Mathlib

/-!
Shallow embedding of the synchronization Controller of the Fulcrum indexer
(src/Controller.cpp) and of the JSON-RPC message id type (src/src/RPCMsgId.h),
with theorems checking the natural-language specification against the code.

Conventions of the embedding:
* byte strings (`QByteArray` contents after hex decoding) are `List Nat`;
* machine integers that the code keeps non-negative are `Nat`; `int` values
  that can be negative (`sm->ht`, which uses the −1 sentinel) are `Int`;
* asynchronous signal emission (`emit success()` …) is returned as data;
* cross-thread message posting is modelled by an explicit event list that is
  folded over the Controller state, so any arrival order is covered.
-/

/-- Decoded bytes of a `QByteArray` (after `Util::ParseHexFast`). -/
abbrev Bytes := List Nat

/-- Modelled from the spec: `bitcoin::uint256::width()`, the block-hash width
in bytes (the class itself is an excluded external; the spec fixes the hash
width as 32 bytes / 256 bits). -/
def uint256_width : Nat := 32

/-- Modelled from the spec: `BTC::GetBlockHeaderSize()` (excluded external);
the glossary fixes the serialized block header at 80 bytes. -/
def GetBlockHeaderSize : Nat := 80

/-- The fields of a `PreProcessedBlock` that the Controller core reads:
its height and its raw header bytes (the block body, tx infos etc. are
opaque to the reassembly logic). -/
structure PPB where
  height : Nat
  header : Bytes
  deriving Repr, DecidableEq

/-! ## RPCMsgId (src/src/RPCMsgId.h) -/

/-- Embeds `RPCMsgId::Type` — the variant tag of the constrained JSON-RPC id. -/
inductive RPCMsgIdType where
  | Null
  | Integer
  | String
  deriving Repr, DecidableEq

/-- Embeds `class RPCMsgId` — tagged union of Null, Integer(i64), String(text). -/
structure RPCMsgId where
  typ : RPCMsgIdType := .Null
  idata : Int := 0
  sdata : String := ""
  deriving Repr, DecidableEq

/-- Embeds `RPCMsgId(int64_t intVal) : typ(Integer), idata(intVal)`. -/
def RPCMsgId.ofInt (intVal : Int) : RPCMsgId := { typ := .Integer, idata := intVal }

/-- Embeds `RPCMsgId(const QString &str) : typ(Integer), sdata(str)` —
the copying constructor from text (note the tag it assigns). -/
def RPCMsgId.ofStringCopy (str : String) : RPCMsgId := { typ := .Integer, sdata := str }

/-- Embeds `RPCMsgId(QString &&str) : typ(String), sdata(std::move(str))` —
the moving constructor from text. -/
def RPCMsgId.ofStringMove (str : String) : RPCMsgId := { typ := .String, sdata := str }

/-- Embeds `RPCMsgId& operator=(const QString &s)` — copy-assignment from text. -/
def RPCMsgId.assignString (r : RPCMsgId) (s : String) : RPCMsgId :=
  { r with typ := .String, sdata := s, idata := 0 }

/-- Embeds the getter `Type type() const` returning the tag. -/
def RPCMsgId.type (r : RPCMsgId) : RPCMsgIdType := r.typ

/-! ## DownloadBlocksTask (src/Controller.cpp) -/

/-- Signals a `CtlTask` can emit towards the Controller. -/
inductive Sig where
  | success
  | errored (errorCode : Int) (errorMessage : String)
  deriving Repr, DecidableEq

/-- Mutable state of a `DownloadBlocksTask` (fields as declared in the
struct; `lastProgress`, the stats atomics and the RPC plumbing are not
read by any claim and are omitted). -/
structure DownloadBlocksTask where
  «from» : Nat
  «to» : Nat
  stride : Nat
  expectedCt : Nat
  next : Nat
  goodCt : Nat
  maybeDone : Bool
  q_ct : Nat
  deriving Repr, DecidableEq

/-- Embeds `DownloadBlocksTask::nToDL` — "basically computes expectedCt":
`(((to-from)+1) + stride-1) / qMax(stride, 1U)`. -/
def nToDL («from» «to» stride : Nat) : Nat :=
  ((«to» - «from») + 1 + (stride - 1)) / max stride 1

/-- Value `BitcoinDMgr::N_CLIENTS + 1`; `N_CLIENTS` is 3 in the excluded
BitcoinDMgr (value immaterial to the claims). -/
def DownloadBlocksTask.max_q : Nat := 3 + 1

/-- The `DownloadBlocksTask` constructor: stores the range, computes
`expectedCt = nToDL(from, to, stride)` and starts with `next = from`. -/
def DownloadBlocksTask.mkTask («from» «to» stride : Nat) : DownloadBlocksTask :=
  { «from» := «from», «to» := «to», stride := stride,
    expectedCt := nToDL «from» «to» stride,
    next := «from», goodCt := 0, maybeDone := false, q_ct := 0 }

/-- Embeds `DownloadBlocksTask::process()`. Returns the updated task state, the
signal emitted (if any), and the height handed to `do_get` (if any). -/
def DownloadBlocksTask.process (t : DownloadBlocksTask) :
    DownloadBlocksTask × Option Sig × Option Nat :=
  if t.next > t.«to» then
    if t.maybeDone then
      if t.goodCt ≥ t.expectedCt then
        (t, some .success, none)
      else
        (t, some (.errored (Int.ofNat (t.expectedCt - t.goodCt))
              ("missing " ++ toString (t.expectedCt - t.goodCt) ++ " headers")), none)
    else
      (t, none, none)
  else
    ({ t with next := t.next + t.stride }, none, some t.next)

/-- The `while (goodCt + q_ct < expectedCt && q_ct < max_q)` pipelining loop
at the end of the `getblock` callback: returns how many `AGAIN()` re-entries
it queues (each iteration also does `++q_ct`). -/
def pipelineAgains (goodCt expectedCt q_ct : Nat) : Nat :=
  if goodCt + q_ct < expectedCt ∧ q_ct < DownloadBlocksTask.max_q then
    1 + pipelineAgains goodCt expectedCt (q_ct + 1)
  else 0
termination_by expectedCt - (goodCt + q_ct)
decreasing_by omega

/-- Result of one `DownloadBlocksTask::do_get(bnum)` round trip: the updated
task state, the signal emitted (if any), the preprocessed block handed to
`Controller::putBlock` (if any), and the number of `AGAIN()` re-entries. -/
structure DoGetResult where
  task : DownloadBlocksTask
  sig : Option Sig
  handedOff : Option PPB
  agains : Nat
  deriving Repr, DecidableEq

/-- Embeds `DownloadBlocksTask::do_get(bnum)`, as a function of the two decoded RPC
replies: `hashReply` is the hex-decoded `getblockhash` result, `rawblock`
the hex-decoded `getblock` result. `hashRev` abstracts `BTC::HashRev`
(double-SHA256, byte-reversed — an excluded external). -/
def DownloadBlocksTask.do_get (t : DownloadBlocksTask) (hashRev : Bytes → Bytes)
    (bnum : Nat) (hashReply : Bytes) (rawblock : Bytes) : DoGetResult :=
  let hash := hashReply
  if hash.length = uint256_width then
    let header := rawblock.take GetBlockHeaderSize
    let sizeOk := header.length = GetBlockHeaderSize
    -- `chkHash` is only assigned when `sizeOk` holds (short-circuit `&&`)
    if sizeOk ∧ hashRev header = hash then
      let t := { t with goodCt := t.goodCt + 1, q_ct := t.q_ct - 1 }
      if t.goodCt ≥ t.expectedCt then
        -- flag state to maybeDone to do checks when process() called again
        { task := { t with maybeDone := true }, sig := none,
          handedOff := some ⟨bnum, header⟩, agains := 1 }
      else
        { task := { t with q_ct := t.q_ct + pipelineAgains t.goodCt t.expectedCt t.q_ct },
          sig := none, handedOff := some ⟨bnum, header⟩,
          agains := pipelineAgains t.goodCt t.expectedCt t.q_ct }
    else if ¬ sizeOk then
      { task := t, sig := some (.errored (Int.ofNat bnum)
          ("bad size for height " ++ toString bnum)), handedOff := none, agains := 0 }
    else
      { task := t, sig := some (.errored (Int.ofNat bnum)
          ("hash mismatch for height " ++ toString bnum)), handedOff := none, agains := 0 }
  else
    { task := t, sig := some (.errored (Int.ofNat bnum)
        ("invalid hash for height " ++ toString bnum)), handedOff := none, agains := 0 }

/-- The sequence of heights on which the task invokes `do_get` across its
repeated work-step entries: starting from `next`, while `next ≤ to` the work
step requests `next` and advances it by `stride`. -/
def requestedHeights («from» «to» stride : Nat) : List Nat :=
  if _h : 0 < stride ∧ «from» ≤ «to» then
    «from» :: requestedHeights («from» + stride) «to» stride
  else []
termination_by «to» + 1 - «from»
decreasing_by omega

/-! ## Controller state machine (src/Controller.cpp) -/

/-- Embeds `Controller::StateMachine::State`. -/
inductive SMState where
  | Begin
  | GetBlocks
  | DownloadingBlocks
  | FinishedDL
  | End
  | Failure
  | IBD
  deriving Repr, DecidableEq

/-- Embeds `struct Controller::StateMachine`. `ppBlocks` (a `std::map` from height
to block) is a list kept sorted by height with unique keys; the head is
`begin()`. `DL_CONCURRENCY` lives in the environment (machine dependent). -/
structure StateMachine where
  state : SMState := .Begin
  ht : Int := -1
  ppBlocks : List PPB := []
  ppBlkHtNext : Nat := 0
  startheight : Nat := 0
  endHeight : Nat := 0
  nTx : Nat := 0
  nIns : Nat := 0
  nOuts : Nat := 0
  deriving Repr, DecidableEq

/-- Embeds `sm->ppBlocks[p->height] = p` — ordered-map insert-or-assign. -/
def mapInsert (p : PPB) : List PPB → List PPB
  | [] => [p]
  | q :: rest =>
    if p.height < q.height then p :: q :: rest
    else if p.height = q.height then p :: rest
    else q :: mapInsert p rest

/-- Events emitted by the Controller for external observers. -/
inductive Emitted where
  | synchronizing
  | upToDate
  | synchFailure
  deriving Repr, DecidableEq

/-- Tasks spawned by the Controller (`newTask<...>`). -/
inductive Spawned where
  | getChainInfo
  | dlTask («from» «to» stride : Nat)
  deriving Repr, DecidableEq

/-- Observable Controller state. `V` is the type of the shared header
verifier owned by `Storage` (an excluded external, kept abstract).
`headers` is Storage's mutable header vector; `chain` is Storage's
persisted chain name; `tasks` holds the ids of the live task set.
`appended`, `emitted` and `spawned` are observation logs: the heights the
Controller appended (in order), the events it emitted and the tasks it
spawned. -/
structure CtlState (V : Type) where
  sm : Option StateMachine := none
  verifier : V
  headers : List Bytes := []
  chain : String := ""
  tasks : List Nat := []
  timers : List (String × Nat) := []
  appended : List Nat := []
  emitted : List Emitted := []
  spawned : List Spawned := []
  deriving Repr, DecidableEq

/-- Environment the Controller runs against: the shared verifier call
(`verif(header, &err)` followed by `verif.lastHeaderProcessed().second`:
on success yields the updated verifier and the canonical raw header; on
failure yields the possibly-mutated verifier and no header), the
machine-dependent `DL_CONCURRENCY`, and the configured `polltime_ms`. -/
structure Env (V : Type) where
  verify : V → Bytes → V × Option Bytes
  DL_CONCURRENCY : Nat
  polltime_ms : Nat

/-- The Controller's poll-timer name (a fixed string constant declared in
Controller.h; its value is immaterial). -/
def pollTimerName : String := "pollTimer"

/-- Embeds `stopTimer(name)` — stopping an absent name is a no-op. -/
def stopTimer (name : String) (ts : List (String × Nat)) : List (String × Nat) :=
  ts.filter (fun x => x.1 ≠ name)

/-- Embeds `callOnTimerSoonNoRepeat(ms, name, ...)` — (re)arm the named timer. -/
def callOnTimerSoonNoRepeat (ms : Nat) (name : String) (ts : List (String × Nat)) :
    List (String × Nat) :=
  stopTimer name ts ++ [(name, ms)]

/-- Embeds `Controller::isTaskDeleted(t)` — `tasks.count(t) == 0`. -/
def isTaskDeleted {V : Type} (st : CtlState V) (t : Nat) : Bool :=
  st.tasks.count t = 0

/-- The slice of Controller state that `process_VerifyAndAddBlock` touches:
the shared verifier, the mutable header vector, the appended-heights log,
and the state-machine phase. -/
structure VState (V : Type) where
  verifier : V
  headers : List Bytes
  appended : List Nat
  smState : SMState
  deriving Repr, DecidableEq

/-- Embeds `Controller::process_VerifyAndAddBlock(ppb)`. Takes a snapshot of the
verifier, calls `verify(ppb.header)`; on failure restores the snapshot,
moves the state machine to Failure and returns false; on success appends
the canonical raw header yielded by the verifier and returns true.
(The `reserve` capacity hint and the every-10,000-headers `Storage::save`
enqueue touch no state any claim observes and are omitted.) -/
def process_VerifyAndAddBlock {V : Type} (verify : V → Bytes → V × Option Bytes)
    (s : VState V) (ppb : PPB) : VState V × Bool :=
  let verifUndo := s.verifier
  match verify s.verifier ppb.header with
  | (_, none) =>
      ({ s with smState := .Failure, verifier := verifUndo }, false)
  | (v, some rawHeader) =>
      ({ s with verifier := v,
                headers := s.headers ++ [rawHeader],
                appended := s.appended ++ [ppb.height] }, true)

/-- The drain loop of `Controller::process_DownloadingBlocks`: while the
first (least-height) entry of `ppBlocks` is the awaited `ppBlkHtNext`,
pop it, advance `ppBlkHtNext` and verify-and-add it; on a verification
failure return immediately. Returns the remaining `ppBlocks`, the new
`ppBlkHtNext`, the new verifier/header slice, and whether the loop ran to
completion (false = aborted on error, mirroring the early `return`). -/
def drainLoop {V : Type} (verify : V → Bytes → V × Option Bytes) :
    List PPB → Nat → VState V → List PPB × Nat × VState V × Bool
  | [], next, s => ([], next, s, true)
  | it :: rest, next, s =>
    if it.height = next then
      match process_VerifyAndAddBlock verify s it with
      | (s, true) => drainLoop verify rest (next + 1) s
      | (s, false) => (rest, next + 1, s, false)
    else (it :: rest, next, s, true)

/-- Embeds `Controller::process_DownloadingBlocks()`: drain `ppBlocks` in order;
on error return at once; otherwise if `ppBlkHtNext >= endHeight` advance
to FinishedDL (and `AGAIN()`). -/
def process_DownloadingBlocks {V : Type} (env : Env V) (st : CtlState V)
    (sm : StateMachine) : CtlState V :=
  let r := drainLoop env.verify sm.ppBlocks sm.ppBlkHtNext
             ⟨st.verifier, st.headers, st.appended, sm.state⟩
  let sm := { sm with ppBlocks := r.1, ppBlkHtNext := r.2.1, state := r.2.2.1.smState }
  let st := { st with verifier := r.2.2.1.verifier, headers := r.2.2.1.headers,
                      appended := r.2.2.1.appended }
  if ¬ r.2.2.2 then
    -- error encountered .. abort!  (early return, skipping the check below)
    { st with sm := some sm }
  else if sm.ppBlkHtNext ≥ sm.endHeight then
    { st with sm := some { sm with state := .FinishedDL } }
  else
    { st with sm := some sm }

/-- Embeds `Controller::process()`. A null `sm` is replaced by a fresh
`StateMachine` (state Begin). The Begin branch spawns the chain-info
probe (its success callback is `chainInfoCb` below); GetBlocks computes
the partition and spawns the download tasks; FinishedDL resets the state
machine (and `AGAIN()`s back to Begin); End/Failure/IBD reset it and arm
the poll timer (60 s for IBD), Failure and IBD emitting `synchFailure`. -/
def process {V : Type} (env : Env V) (st : CtlState V) : CtlState V :=
  let st := { st with timers := stopTimer pollTimerName st.timers }
  let sm := st.sm.getD {}
  match sm.state with
  | .Begin =>
      { st with sm := some sm, spawned := st.spawned ++ [.getChainInfo] }
  | .GetBlocks =>
      let «base» := st.headers.length
      let num := (sm.ht + 1).toNat - «base»
      let nTasks := min num env.DL_CONCURRENCY
      let sm := { sm with ppBlkHtNext := «base», startheight := «base»,
                          endHeight := «base» + num - 1, state := .DownloadingBlocks }
      { st with sm := some sm,
                spawned := st.spawned ++
                  (List.range nTasks).map (fun i => .dlTask («base» + i) sm.ht.toNat nTasks) }
  | .DownloadingBlocks => process_DownloadingBlocks env { st with sm := some sm } sm
  | .FinishedDL =>
      -- log totals; reset; AGAIN(); enqueue Storage::save(Hdrs)
      { st with sm := none }
  | .End =>
      { st with sm := none,
                timers := callOnTimerSoonNoRepeat env.polltime_ms pollTimerName st.timers }
  | .Failure =>
      { st with sm := none,
                emitted := st.emitted ++ [.synchFailure],
                timers := callOnTimerSoonNoRepeat env.polltime_ms pollTimerName st.timers }
  | .IBD =>
      { st with sm := none,
                emitted := st.emitted ++ [.synchFailure],
                timers := callOnTimerSoonNoRepeat (60 * 1000) pollTimerName st.timers }

/-- The body of `Controller::putBlock(task, p)` once posted onto the
Controller's context: drop silently if there is no state machine, the
originating task was removed, or the state is Failure; warn-and-drop if
the state is not DownloadingBlocks; otherwise insert the block into
`ppBlocks` and `AGAIN()` (the queued re-entry is a separate event). -/
def putBlock {V : Type} (task : Nat) (p : PPB) (st : CtlState V) : CtlState V :=
  match st.sm with
  | none => st
  | some sm =>
    if isTaskDeleted st task ∨ sm.state = .Failure then st
    else if sm.state ≠ .DownloadingBlocks then st
    else { st with sm := some { sm with ppBlocks := mapInsert p sm.ppBlocks } }

/-- Embeds `Controller::genericTaskErrored()`. -/
def genericTaskErrored {V : Type} (st : CtlState V) : CtlState V :=
  match st.sm with
  | none => st
  | some sm =>
    if sm.state ≠ .Failure then { st with sm := some { sm with state := .Failure } }
    else st

/-- The poll-timer callback `[this]{ if (!sm) process(true); }`. -/
def pollTimerCb {V : Type} (env : Env V) (st : CtlState V) : CtlState V :=
  if st.sm.isNone then process env st else st

/-- The fields of `ChainInfo` the Begin-state success callback reads. -/
structure ChainInfo where
  chain : String := ""
  blocks : Int := 0
  initialBlockDownload : Bool := false
  deriving Repr, DecidableEq

/-- The success callback of the `GetChainInfoTask` spawned by the Begin
state. Returns the new Controller state and whether a fatal exit was hit
(chain mismatch, or local height above the remote tip). `taskDeleted`
is the staleness check `!sm || isTaskDeleted(task)`. -/
def chainInfoCb {V : Type} (taskDeleted : Bool) (beSilentIfUpToDate : Bool)
    (info : ChainInfo) (st : CtlState V) : CtlState V × Bool :=
  match st.sm with
  | none => (st, false)
  | some sm =>
    if taskDeleted then (st, false)
    else if info.initialBlockDownload then
      ({ st with sm := some { sm with state := .IBD } }, false)  -- AGAIN()
    else
      let dbchain := st.chain
      let st := if dbchain = "" ∧ info.chain ≠ "" then { st with chain := info.chain }
                else st
      if ¬ (dbchain = "" ∧ info.chain ≠ "") ∧ dbchain ≠ info.chain then
        (st, true)  -- Fatal(): wrong bitcoind
      else
        let old : Int := st.headers.length - 1
        let sm := { sm with ht := info.blocks }
        if old = sm.ht then
          let st := if ¬ beSilentIfUpToDate then { st with emitted := st.emitted ++ [.upToDate] }
                    else st
          ({ st with sm := some { sm with state := .End } }, false)  -- AGAIN()
        else if old > sm.ht then
          ({ st with sm := some sm }, true)  -- Fatal(): regression
        else
          ({ st with sm := some { sm with state := .GetBlocks },
                     emitted := st.emitted ++ [.synchronizing] }, false)  -- AGAIN()

/-- A message posted to the Controller's execution context: a `putBlock`
from a task, or an entry of `process()` (from `AGAIN()` re-entries or the
initial kick-off). Folding over an arbitrary event list covers every
arrival order of the posted messages. -/
inductive Ev where
  | put (task : Nat) (p : PPB)
  | proc
  deriving Repr, DecidableEq

/-- One posted message. -/
def step {V : Type} (env : Env V) (st : CtlState V) : Ev → CtlState V
  | .put task p => putBlock task p st
  | .proc => process env st

/-- A sequence of posted messages. -/
def runEvents {V : Type} (env : Env V) (st : CtlState V) : List Ev → CtlState V
  | [] => st
  | e :: evs => runEvents env (step env st e) evs

/-! ## Theorems for the claims -/

/-- C8: Constructing an `RPCMsgId` from a text value does NOT always yield
the String variant: the copying constructor `RPCMsgId(const QString&)`
assigns the `Integer` tag, while the moving constructor — and the
copy-assignment operator, showing the intended tag for text — assign
`String`. This evaluates the code at the failing input `"a"`. -/
theorem c8_string_ctor_evaluation :
    (RPCMsgId.ofStringCopy "a").type = .Integer ∧
    (RPCMsgId.ofStringCopy "a").type ≠ .String ∧
    (RPCMsgId.ofStringMove "a").type = .String ∧
    (RPCMsgId.assignString {} "a").type = .String := by
  refine ⟨rfl, by decide, rfl, rfl⟩

/-- C6: a `putBlock` message arriving when no state machine exists, or whose
originating task has been removed from the task set, or arriving in the
Failure state, is dropped silently: the Controller state is unchanged. -/
theorem c6_stale_putBlock_noop {V : Type} (st : CtlState V) (task : Nat) (p : PPB)
    (h : st.sm = none ∨ isTaskDeleted st task = true ∨
         (∃ sm, st.sm = some sm ∧ sm.state = .Failure)) :
    putBlock task p st = st := by
  rcases h with h | h | ⟨sm, hsm, hf⟩
  · simp [putBlock, h]
  · cases hsm : st.sm with
    | none => simp [putBlock, hsm]
    | some sm => simp [putBlock, hsm, h]
  · simp [putBlock, hsm, hf]

/-- Witness for C6 at a concrete input (state machine in Failure, and the
task id also absent from the task set). -/
theorem c6_stale_putBlock_noop_witness :
    putBlock 5 ⟨3, [1]⟩
        ({ sm := some { state := .Failure }, verifier := () } : CtlState Unit) =
      ({ sm := some { state := .Failure }, verifier := () } : CtlState Unit) :=
  c6_stale_putBlock_noop _ 5 ⟨3, [1]⟩ (Or.inr (Or.inl (by decide)))

/-- C5: if the shared header verifier rejects a block's header, then
`process_VerifyAndAddBlock` restores the verifier to its pre-call
snapshot, appends nothing to the mutable header vector, moves the state
machine to Failure, and returns false. -/
theorem c5_verifier_failure_atomic {V : Type} (verify : V → Bytes → V × Option Bytes)
    (s : VState V) (ppb : PPB)
    (hfail : (verify s.verifier ppb.header).2 = none) :
    (process_VerifyAndAddBlock verify s ppb).2 = false ∧
    (process_VerifyAndAddBlock verify s ppb).1.verifier = s.verifier ∧
    (process_VerifyAndAddBlock verify s ppb).1.headers = s.headers ∧
    (process_VerifyAndAddBlock verify s ppb).1.appended = s.appended ∧
    (process_VerifyAndAddBlock verify s ppb).1.smState = .Failure := by
  rcases hv : verify s.verifier ppb.header with ⟨v, o⟩
  rw [hv] at hfail
  simp only at hfail
  subst hfail
  simp [process_VerifyAndAddBlock, hv]

/-- Witness for C5: a verifier (state `Nat`, incremented by each call) that
mutates and rejects; the wrapper restores the snapshot and fails cleanly. -/
theorem c5_verifier_failure_atomic_witness :
    (process_VerifyAndAddBlock (fun v _ => (v + 1, none))
        (⟨7, [[1]], [0], .DownloadingBlocks⟩ : VState Nat) ⟨1, [2]⟩).2 = false ∧
    (process_VerifyAndAddBlock (fun v _ => (v + 1, none))
        (⟨7, [[1]], [0], .DownloadingBlocks⟩ : VState Nat) ⟨1, [2]⟩).1.verifier = 7 ∧
    (process_VerifyAndAddBlock (fun v _ => (v + 1, none))
        (⟨7, [[1]], [0], .DownloadingBlocks⟩ : VState Nat) ⟨1, [2]⟩).1.headers = [[1]] ∧
    (process_VerifyAndAddBlock (fun v _ => (v + 1, none))
        (⟨7, [[1]], [0], .DownloadingBlocks⟩ : VState Nat) ⟨1, [2]⟩).1.appended = [0] ∧
    (process_VerifyAndAddBlock (fun v _ => (v + 1, none))
        (⟨7, [[1]], [0], .DownloadingBlocks⟩ : VState Nat) ⟨1, [2]⟩).1.smState = .Failure :=
  c5_verifier_failure_atomic (fun v _ => (v + 1, none)) _ _ rfl

/-- C3 counterexample: a work-step entry with `next > to` and `maybeDone`
still unset does not set `maybeDone`, emits no signal and issues no
request — the claim says such an entry "sets maybeDone and re-enters";
in the code `maybeDone` is set elsewhere (in the block-delivery callback
once `goodCt` reaches `expectedCt`). -/
theorem c3_counterexample :
    DownloadBlocksTask.process ⟨0, 0, 1, 1, 1, 0, false, 0⟩ =
      (⟨0, 0, 1, 1, 1, 0, false, 0⟩, none, none) := by decide

/-- C3 (amended): `maybeDone` is set by the block-delivery callback when
`goodCt` reaches `expectedCt`, which queues exactly one re-entry of the
work step; a work-step entry with `next > to` and `maybeDone` unset does
nothing; on an entry with `next > to` and `maybeDone` set, the task
signals success if `goodCt ≥ expectedCt`, and otherwise errored with
`errorCode = expectedCt − goodCt` and message "missing N headers". -/
theorem c3_amended (t : DownloadBlocksTask) (hgt : t.next > t.«to») :
    (t.maybeDone = false → t.process = (t, none, none)) ∧
    (t.maybeDone = true → t.goodCt ≥ t.expectedCt →
       t.process = (t, some .success, none)) ∧
    (t.maybeDone = true → t.goodCt < t.expectedCt →
       t.process = (t, some (.errored (Int.ofNat (t.expectedCt - t.goodCt))
         ("missing " ++ toString (t.expectedCt - t.goodCt) ++ " headers")), none)) ∧
    (∀ (hashRev : Bytes → Bytes) (bnum : Nat) (hr br : Bytes),
       hr.length = uint256_width →
       (br.take GetBlockHeaderSize).length = GetBlockHeaderSize →
       hashRev (br.take GetBlockHeaderSize) = hr →
       t.goodCt + 1 ≥ t.expectedCt →
       (t.do_get hashRev bnum hr br).task.maybeDone = true ∧
       (t.do_get hashRev bnum hr br).agains = 1) := by
  refine ⟨?_, ?_, ?_, ?_⟩
  · intro hmd
    simp [DownloadBlocksTask.process, hgt, hmd]
  · intro hmd hge
    simp [DownloadBlocksTask.process, hgt, hmd, hge]
  · intro hmd hlt
    simp [DownloadBlocksTask.process, hgt, hmd, Nat.not_le.mpr hlt]
  · intro hashRev bnum hr br h1 h2 h3 h4
    simp [DownloadBlocksTask.do_get, h1, h2, h3, h4]

/-- Witness for C3 (amended): a finished task (1 block expected and
delivered) signals success on the re-entry with `maybeDone` set. -/
theorem c3_amended_witness :
    DownloadBlocksTask.process ⟨0, 0, 1, 1, 1, 1, true, 0⟩ =
      (⟨0, 0, 1, 1, 1, 1, true, 0⟩, some .success, none) :=
  (c3_amended ⟨0, 0, 1, 1, 1, 1, true, 0⟩ (by decide)).2.1 rfl (by decide)

/-- The drain step never touches the timer set. -/
lemma process_DownloadingBlocks_timers {V : Type} (env : Env V) (st : CtlState V)
    (sm : StateMachine) :
    (process_DownloadingBlocks env st sm).timers = st.timers := by
  unfold process_DownloadingBlocks
  dsimp only
  split
  · rfl
  · split <;> rfl

/-- Either `process` ends the round (no state machine remains), or it has
stopped the poll timer and not re-armed it. -/
lemma process_sm_or_timers {V : Type} (env : Env V) (st : CtlState V) :
    (process env st).sm = none ∨
    (process env st).timers = stopTimer pollTimerName st.timers := by
  unfold process
  rcases hs : (st.sm.getD {}).state <;> simp [hs, process_DownloadingBlocks_timers]

/-- C10: the poll timer cannot re-enter processing while a synchronization
round is in progress: (a) the poll-timer callback invokes `process` only
when no state machine exists — with an active state machine it leaves the
Controller state unchanged; (b) every entry of `process` first stops the
poll timer, so whenever a state machine survives the call, the poll timer
is not armed. -/
theorem c10_poll_timer_no_reentry {V : Type} (env : Env V) (st : CtlState V) :
    (st.sm.isSome → pollTimerCb env st = st) ∧
    ((process env st).sm.isSome →
       ∀ ms, (pollTimerName, ms) ∉ (process env st).timers) := by
  constructor
  · intro h
    have hn : st.sm.isNone = false := by
      rcases hsm : st.sm with _ | sm
      · rw [hsm] at h; simp at h
      · rfl
    simp [pollTimerCb, hn]
  · intro h ms hmem
    rcases process_sm_or_timers env st with hnone | htimers
    · rw [hnone] at h; simp at h
    · rw [htimers] at hmem
      have := List.mem_filter.mp hmem
      simp at this

/-- Witness for C10: with an active state machine the poll tick is a no-op,
and after a `process` that leaves the machine in DownloadingBlocks the
poll timer is not armed. -/
theorem c10_poll_timer_no_reentry_witness :
    (pollTimerCb (⟨fun v _ => (v, some [7]), 4, 5000⟩ : Env Unit)
        { sm := some { state := .DownloadingBlocks, endHeight := 3 }, verifier := (),
          timers := [("x", 1)] } =
      { sm := some { state := .DownloadingBlocks, endHeight := 3 }, verifier := (),
        timers := [("x", 1)] }) ∧
    ((pollTimerName, 5000) ∉
      (process (⟨fun v _ => (v, some [7]), 4, 5000⟩ : Env Unit)
        ({ sm := some {}, verifier := (), timers := [(pollTimerName, 5000)] }
          : CtlState Unit)).timers) := by
  constructor
  · exact (c10_poll_timer_no_reentry (⟨fun v _ => (v, some [7]), 4, 5000⟩ : Env Unit)
      { sm := some { state := .DownloadingBlocks, endHeight := 3 }, verifier := (),
        timers := [("x", 1)] }).1 rfl
  · exact (c10_poll_timer_no_reentry (⟨fun v _ => (v, some [7]), 4, 5000⟩ : Env Unit)
      { sm := some {}, verifier := (), timers := [(pollTimerName, 5000)] }).2
      (by decide) 5000

/-- C9: when the chain-info probe reports `initialBlockDownload = true`, the
round spawns no download task: the Begin-state callback moves straight to
IBD (no fatal exit, nothing spawned), and the IBD state then resets the
machine, emits `synchFailure`, and arms the poll timer at 60000 ms. -/
theorem c9_ibd_round {V : Type} (env : Env V) (st : CtlState V) (sm : StateMachine)
    (info : ChainInfo) (beSilent : Bool)
    (hsm : st.sm = some sm)
    (hibd : info.initialBlockDownload = true) :
    (chainInfoCb false beSilent info st).2 = false ∧
    (chainInfoCb false beSilent info st).1.spawned = st.spawned ∧
    ((chainInfoCb false beSilent info st).1.sm.map StateMachine.state = some .IBD) ∧
    (process env (chainInfoCb false beSilent info st).1).sm = none ∧
    (process env (chainInfoCb false beSilent info st).1).spawned = st.spawned ∧
    (process env (chainInfoCb false beSilent info st).1).emitted
        = st.emitted ++ [.synchFailure] ∧
    (pollTimerName, 60 * 1000) ∈ (process env (chainInfoCb false beSilent info st).1).timers := by
  have hcb : chainInfoCb false beSilent info st =
      ({ st with sm := some { sm with state := .IBD } }, false) := by
    simp [chainInfoCb, hsm, hibd]
  rw [hcb]
  refine ⟨rfl, rfl, rfl, ?_, ?_, ?_, ?_⟩ <;>
    simp [process, callOnTimerSoonNoRepeat]

/-- Witness for C9 at a concrete state and chain-info reply. -/
theorem c9_ibd_round_witness :
    (chainInfoCb false false ⟨"main", 10, true⟩
        ({ sm := some {}, verifier := () } : CtlState Unit)).2 = false ∧
    (chainInfoCb false false ⟨"main", 10, true⟩
        ({ sm := some {}, verifier := () } : CtlState Unit)).1.spawned = [] ∧
    ((chainInfoCb false false ⟨"main", 10, true⟩
        ({ sm := some {}, verifier := () } : CtlState Unit)).1.sm.map StateMachine.state
      = some .IBD) ∧
    (process (⟨fun v _ => (v, some [7]), 4, 5000⟩ : Env Unit)
        (chainInfoCb false false ⟨"main", 10, true⟩
          ({ sm := some {}, verifier := () } : CtlState Unit)).1).sm = none ∧
    (process (⟨fun v _ => (v, some [7]), 4, 5000⟩ : Env Unit)
        (chainInfoCb false false ⟨"main", 10, true⟩
          ({ sm := some {}, verifier := () } : CtlState Unit)).1).spawned = [] ∧
    (process (⟨fun v _ => (v, some [7]), 4, 5000⟩ : Env Unit)
        (chainInfoCb false false ⟨"main", 10, true⟩
          ({ sm := some {}, verifier := () } : CtlState Unit)).1).emitted
      = [] ++ [.synchFailure] ∧
    (pollTimerName, 60 * 1000) ∈
      (process (⟨fun v _ => (v, some [7]), 4, 5000⟩ : Env Unit)
        (chainInfoCb false false ⟨"main", 10, true⟩
          ({ sm := some {}, verifier := () } : CtlState Unit)).1).timers :=
  c9_ibd_round _ _ {} ⟨"main", 10, true⟩ false rfl rfl

/-- Two different error-message templates stay different after the height
is appended (their prefixes have different lengths). -/
lemma append_ne_of_length_ne {s1 s2 : String} (h : s1.length ≠ s2.length)
    (n : String) : s1 ++ n ≠ s2 ++ n := by
  intro he
  apply h
  have hl := congrArg String.length he
  rw [String.length_append, String.length_append] at hl
  omega

/-- C7: per-height validation in `do_get`. The task signals
"invalid hash for height h" iff the `getblockhash` reply does not decode
to exactly the hash width; "bad size for height h" iff the block's first
header-size bytes fall short of the header size; "hash mismatch for
height h" iff the header has the right size but `HashRev(header)` differs
from the hash; and it hands the block off to the Controller iff none of
these occur. -/
theorem c7_do_get_validation (t : DownloadBlocksTask) (hashRev : Bytes → Bytes)
    (bnum : Nat) (hr br : Bytes) :
    ((t.do_get hashRev bnum hr br).sig =
        some (.errored (Int.ofNat bnum) ("invalid hash for height " ++ toString bnum)) ↔
      hr.length ≠ uint256_width) ∧
    ((t.do_get hashRev bnum hr br).sig =
        some (.errored (Int.ofNat bnum) ("bad size for height " ++ toString bnum)) ↔
      hr.length = uint256_width ∧
        (br.take GetBlockHeaderSize).length < GetBlockHeaderSize) ∧
    ((t.do_get hashRev bnum hr br).sig =
        some (.errored (Int.ofNat bnum) ("hash mismatch for height " ++ toString bnum)) ↔
      hr.length = uint256_width ∧
        (br.take GetBlockHeaderSize).length = GetBlockHeaderSize ∧
        hashRev (br.take GetBlockHeaderSize) ≠ hr) ∧
    ((t.do_get hashRev bnum hr br).handedOff.isSome ↔
      hr.length = uint256_width ∧
        (br.take GetBlockHeaderSize).length = GetBlockHeaderSize ∧
        hashRev (br.take GetBlockHeaderSize) = hr) := by
  have hlen : (br.take GetBlockHeaderSize).length ≤ GetBlockHeaderSize :=
    List.length_take_le _ _
  have hbadinv : ("bad size for height " ++ toString bnum) ≠
      ("invalid hash for height " ++ toString bnum) :=
    append_ne_of_length_ne (by decide) _
  have hmisinv : ("hash mismatch for height " ++ toString bnum) ≠
      ("invalid hash for height " ++ toString bnum) :=
    append_ne_of_length_ne (by decide) _
  have hmisbad : ("hash mismatch for height " ++ toString bnum) ≠
      ("bad size for height " ++ toString bnum) :=
    append_ne_of_length_ne (by decide) _
  have hinvbad := hbadinv.symm
  have hinvmis := hmisinv.symm
  have hbadmis := hmisbad.symm
  by_cases h1 : hr.length = uint256_width
  · by_cases h2 : GetBlockHeaderSize ≤ br.length
    · have h2' := Nat.not_lt.mpr h2
      by_cases h3 : hashRev (br.take GetBlockHeaderSize) = hr
      · by_cases h4 : t.goodCt + 1 ≥ t.expectedCt <;>
          simp [DownloadBlocksTask.do_get, h1, h2, h2', h3, h4]
      · simp [DownloadBlocksTask.do_get, h1, h2, h2', h3, hmisinv, hmisbad,
          hinvmis, hbadmis]
    · have h2' := Nat.not_le.mp h2
      simp [DownloadBlocksTask.do_get, h1, h2, h2', hbadinv, hinvbad, hbadmis, hmisbad]
  · simp [DownloadBlocksTask.do_get, h1, hinvbad, hinvmis, hbadinv, hmisinv]

/-- Characterization of the heights a task requests: exactly the members of
its arithmetic progression that do not exceed `to`. -/
lemma mem_requestedHeights (s t : Nat) (hs : 0 < s) :
    ∀ n f h, t + 1 - f ≤ n →
      (h ∈ requestedHeights f t s ↔ (∃ k, h = f + k * s) ∧ h ≤ t) := by
  intro n
  induction n with
  | zero =>
    intro f h hle
    have hft : ¬ (f ≤ t) := by omega
    rw [requestedHeights, dif_neg (by tauto)]
    simp only [List.not_mem_nil, false_iff]
    rintro ⟨⟨k, rfl⟩, hht⟩
    omega
  | succ n ih =>
    intro f h hle
    by_cases hft : f ≤ t
    · rw [requestedHeights, dif_pos ⟨hs, hft⟩]
      simp only [List.mem_cons]
      rw [ih (f + s) h (by omega)]
      constructor
      · rintro (rfl | ⟨⟨k, rfl⟩, hht⟩)
        · exact ⟨⟨0, by ring⟩, hft⟩
        · exact ⟨⟨k + 1, by ring⟩, hht⟩
      · rintro ⟨⟨k, rfl⟩, hht⟩
        cases k with
        | zero => left; simp
        | succ k => right; exact ⟨⟨k, by ring⟩, hht⟩
    · rw [requestedHeights, dif_neg (by tauto)]
      simp only [List.not_mem_nil, false_iff]
      rintro ⟨⟨k, rfl⟩, hht⟩
      omega

/-- Fact: `nToDL` is the rational ceiling `⌈(to − from + 1) / stride⌉`. -/
lemma nToDL_eq_ceil (f t s : Nat) (hs : 0 < s) (hft : f ≤ t) :
    (nToDL f t s : Int) = ⌈((t : ℚ) - (f : ℚ) + 1) / (s : ℚ)⌉ := by
  have hmax : max s 1 = s := by omega
  have hdef : nToDL f t s = ((t - f) + 1 + (s - 1)) / s := by rw [nToDL, hmax]
  set m : Nat := (t - f) + 1 with hm
  set q : Nat := (m + (s - 1)) / s with hq
  have hdm := Nat.div_add_mod (m + (s - 1)) s
  rw [← hq] at hdm
  have hr : (m + (s - 1)) % s < s := Nat.mod_lt _ hs
  have key1 : m ≤ s * q := by omega
  have key2 : s * q < m + s := by omega
  have hsq : (0 : ℚ) < (s : ℚ) := by exact_mod_cast hs
  have hcast : (t : ℚ) - (f : ℚ) + 1 = (m : ℚ) := by
    rw [hm]
    push_cast [Nat.cast_sub hft]
    ring
  rw [hdef, hcast]
  symm
  rw [Int.ceil_eq_iff]
  have hk1 : (m : ℚ) ≤ (s : ℚ) * (q : ℚ) := by exact_mod_cast key1
  have hk2 : ((s : ℚ) * (q : ℚ)) < (m : ℚ) + (s : ℚ) := by exact_mod_cast key2
  have hqc : (((q : Int)) : ℚ) = (q : ℚ) := by push_cast; ring
  constructor
  · rw [hqc, lt_div_iff₀ hsq]
    nlinarith [hk2]
  · rw [hqc, div_le_iff₀ hsq]
    nlinarith [hk1]

/-- C4: for a range `[from, to]` split among `N` download tasks where task
`i` downloads the heights `{from+i, from+i+N, …} ∩ [0, to]` (stride `N`,
as spawned by the GetBlocks state), the tasks' requested heights are
pairwise disjoint, their union is exactly `{from, …, to}`, and each
task's `expectedCt` is `⌈(to − from_i + 1) / N⌉`. -/
theorem c4_stride_partition (f t N : Nat) (hN : 0 < N) (hft : f ≤ t)
    (hNle : N ≤ t - f + 1) :
    (∀ i j h, i < N → j < N →
        h ∈ requestedHeights (f + i) t N → h ∈ requestedHeights (f + j) t N →
        i = j) ∧
    (∀ h, (f ≤ h ∧ h ≤ t) ↔ ∃ i, i < N ∧ h ∈ requestedHeights (f + i) t N) ∧
    (∀ i, i < N →
        ((DownloadBlocksTask.mkTask (f + i) t N).expectedCt : Int) =
          ⌈((t : ℚ) - ((f : ℚ) + (i : ℚ)) + 1) / (N : ℚ)⌉) := by
  have hmem : ∀ g h, h ∈ requestedHeights g t N ↔ (∃ k, h = g + k * N) ∧ h ≤ t :=
    fun g h => mem_requestedHeights N t hN (t + 1) g h (by omega)
  refine ⟨?_, ?_, ?_⟩
  · intro i j h hi hj hmi hmj
    obtain ⟨⟨k, hk⟩, hht⟩ := (hmem _ _).mp hmi
    obtain ⟨⟨l, hl⟩, _⟩ := (hmem _ _).mp hmj
    have heq : i + k * N = j + l * N := by omega
    have hik : (i + k * N) % N = i := by
      rw [Nat.add_mul_mod_self_right, Nat.mod_eq_of_lt hi]
    have hjl : (j + l * N) % N = j := by
      rw [Nat.add_mul_mod_self_right, Nat.mod_eq_of_lt hj]
    rw [← hik, ← hjl, heq]
  · intro h
    constructor
    · rintro ⟨hfh, hht⟩
      refine ⟨(h - f) % N, Nat.mod_lt _ hN,
        (hmem _ _).mpr ⟨⟨(h - f) / N, ?_⟩, hht⟩⟩
      have hdm := Nat.div_add_mod (h - f) N
      have hcomm : (h - f) / N * N = N * ((h - f) / N) := Nat.mul_comm _ _
      omega
    · rintro ⟨i, hi, hmi⟩
      obtain ⟨⟨k, hk⟩, hht⟩ := (hmem _ _).mp hmi
      exact ⟨by omega, hht⟩
  · intro i hi
    have hfit : f + i ≤ t := by omega
    have hceil := nToDL_eq_ceil (f + i) t N hN hfit
    have hct : (DownloadBlocksTask.mkTask (f + i) t N).expectedCt = nToDL (f + i) t N :=
      rfl
    rw [hct, hceil]
    norm_num

/-- Witness for C4 at `[0, 3]` split in two tasks: the even-residue task
expects `⌈4/2⌉ = 2` headers. -/
theorem c4_stride_partition_witness :
    ((DownloadBlocksTask.mkTask (0 + 0) 3 2).expectedCt : Int) =
      ⌈(((3 : Nat) : ℚ) - (((0 : Nat) : ℚ) + ((0 : Nat) : ℚ)) + 1) / ((2 : Nat) : ℚ)⌉ :=
  (c4_stride_partition 0 3 2 (by decide) (by decide) (by decide)).2.2 0 (by decide)

/-- What one drain run does: it appends the headers of `k` consecutive
heights starting exactly at the awaited `ppBlkHtNext`; on a clean exit the
next awaited height advances by `k` and the phase is untouched, while on a
verification failure the phase is Failure (the failing height was popped
and skipped without an append). -/
lemma drainLoop_spec {V : Type} (verify : V → Bytes → V × Option Bytes) :
    ∀ (pp : List PPB) (next : Nat) (s : VState V),
      ∃ k,
        (drainLoop verify pp next s).2.2.1.appended
            = s.appended ++ List.range' next k ∧
        (drainLoop verify pp next s).2.2.1.headers.length
            = s.headers.length + k ∧
        ((drainLoop verify pp next s).2.2.2 = true →
           (drainLoop verify pp next s).2.1 = next + k ∧
           (drainLoop verify pp next s).2.2.1.smState = s.smState) ∧
        ((drainLoop verify pp next s).2.2.2 = false →
           (drainLoop verify pp next s).2.1 = next + k + 1 ∧
           (drainLoop verify pp next s).2.2.1.smState = .Failure) := by
  intro pp
  induction pp with
  | nil =>
    intro next s
    refine ⟨0, ?_, ?_, ?_, ?_⟩ <;> simp [drainLoop]
  | cons it rest ih =>
    intro next s
    by_cases hh : it.height = next
    · rcases hv : verify s.verifier it.header with ⟨v, o⟩
      cases o with
      | none =>
        have hstep : drainLoop verify (it :: rest) next s =
            (rest, next + 1, { s with smState := .Failure, verifier := s.verifier },
             false) := by
          simp [drainLoop, hh, process_VerifyAndAddBlock, hv]
        refine ⟨0, ?_, ?_, ?_, ?_⟩ <;> rw [hstep] <;> simp
      | some raw =>
        obtain ⟨k, h1, h2, h3, h4⟩ := ih (next + 1)
          { s with verifier := v, headers := s.headers ++ [raw],
                   appended := s.appended ++ [it.height] }
        have hstep : drainLoop verify (it :: rest) next s =
            drainLoop verify rest (next + 1)
              { s with verifier := v, headers := s.headers ++ [raw],
                       appended := s.appended ++ [it.height] } := by
          simp [drainLoop, hh, process_VerifyAndAddBlock, hv]
        refine ⟨k + 1, ?_, ?_, ?_, ?_⟩ <;> rw [hstep]
        · rw [h1]
          simp only [hh, List.append_assoc, List.singleton_append]
          rw [List.range'_succ]
        · rw [h2]
          simp only [List.length_append, List.length_singleton]
          omega
        · intro hb
          obtain ⟨ha, hs⟩ := h3 hb
          constructor
          · omega
          · simpa using hs
        · intro hb
          obtain ⟨ha, hs⟩ := h4 hb
          constructor
          · omega
          · exact hs
    · have hstep : drainLoop verify (it :: rest) next s =
          (it :: rest, next, s, true) := by
        simp [drainLoop, hh]
      refine ⟨0, ?_, ?_, ?_, ?_⟩ <;> rw [hstep] <;> simp

/-- The reassembly invariant of one synchronization round (started with
`startheight = sh`, `endHeight = eh`, `h0` headers already in storage):
the appended heights so far are exactly `sh, sh+1, …` in order (strictly
ascending, gap-free), storage grew in lockstep, and the live state machine
phases carry the matching counters. -/
def DrainInv {V : Type} (h0 sh eh : Nat) (st : CtlState V) : Prop :=
  st.appended = List.range' sh st.appended.length ∧
  st.headers.length = h0 + st.appended.length ∧
  ∀ sm, st.sm = some sm →
    sm.state ≠ .GetBlocks ∧
    (sm.state = .DownloadingBlocks →
       sm.ppBlkHtNext = sh + st.appended.length ∧ sm.endHeight = eh ∧
       sm.startheight = sh) ∧
    (sm.state = .FinishedDL →
       sm.ppBlkHtNext = sh + st.appended.length ∧ sm.ppBlkHtNext ≥ eh ∧
       sm.startheight = sh ∧ sm.endHeight = eh)

/-- Fact: `putBlock` preserves the reassembly invariant (it only inserts into
`ppBlocks`, or drops the message). -/
lemma putBlock_inv {V : Type} {h0 sh eh : Nat} (task : Nat) (p : PPB)
    (st : CtlState V) (h : DrainInv h0 sh eh st) :
    DrainInv h0 sh eh (putBlock task p st) := by
  obtain ⟨h1, h2, h3⟩ := h
  unfold putBlock
  cases hsm : st.sm with
  | none => exact ⟨h1, h2, h3⟩
  | some sm =>
    by_cases hdel : (isTaskDeleted st task = true ∨ sm.state = .Failure)
    · simp only [if_pos hdel]
      exact ⟨h1, h2, h3⟩
    · simp only [if_neg hdel]
      by_cases hdl : sm.state ≠ .DownloadingBlocks
      · simp only [if_pos hdl]
        exact ⟨h1, h2, h3⟩
      · simp only [if_neg hdl]
        refine ⟨h1, h2, ?_⟩
        intro sm' hsm'
        simp only [Option.some.injEq] at hsm'
        obtain ⟨hA, hB, hC⟩ := h3 sm hsm
        subst hsm'
        exact ⟨hA, fun hs => hB hs, fun hs => hC hs⟩

/-- Appending the next `k` consecutive heights to a gap-free log keeps it
gap-free. -/
lemma range'_extend (sh n k : Nat) :
    List.range' sh n ++ List.range' (sh + n) k = List.range' sh (n + k) := by
  have h := List.range'_append sh n k 1
  rw [one_mul] at h
  rw [h, Nat.add_comm]

/-- Fact: `process` preserves the reassembly invariant. -/
lemma process_inv {V : Type} (env : Env V) {h0 sh eh : Nat} (st : CtlState V)
    (h : DrainInv h0 sh eh st) : DrainInv h0 sh eh (process env st) := by
  obtain ⟨h1, h2, h3⟩ := h
  unfold process
  cases hsm : st.sm with
  | none =>
    simp only [Option.getD_none]
    refine ⟨h1, h2, ?_⟩
    intro sm' hsm'
    simp only [Option.some.injEq] at hsm'
    subst hsm'
    refine ⟨by simp, by simp, by simp⟩
  | some sm =>
    simp only [Option.getD_some]
    obtain ⟨hG, hD, hF⟩ := h3 sm hsm
    cases hstate : sm.state with
    | Begin =>
      refine ⟨h1, h2, ?_⟩
      intro sm' hsm'
      simp only [Option.some.injEq] at hsm'
      subst hsm'
      exact ⟨by simp [hstate], by simp [hstate], by simp [hstate]⟩
    | GetBlocks => exact absurd hstate hG
    | DownloadingBlocks =>
      obtain ⟨hnext, heh, hsh⟩ := hD hstate
      unfold process_DownloadingBlocks
      dsimp only
      obtain ⟨k, ha, hhl, hok, hfail⟩ := drainLoop_spec env.verify sm.ppBlocks
        sm.ppBlkHtNext ⟨st.verifier, st.headers, st.appended, sm.state⟩
      set r := drainLoop env.verify sm.ppBlocks sm.ppBlkHtNext
        ⟨st.verifier, st.headers, st.appended, sm.state⟩ with hr
      dsimp only at ha hhl hok hfail
      have happlen : r.2.2.1.appended.length = st.appended.length + k := by
        rw [ha]
        simp
      have happx : r.2.2.1.appended = List.range' sh (st.appended.length + k) := by
        rw [ha, hnext]
        nth_rewrite 1 [h1]
        exact range'_extend sh st.appended.length k
      have hheadx : r.2.2.1.headers.length = h0 + (st.appended.length + k) := by
        rw [hhl, h2]
        omega
      have hgoal1 : r.2.2.1.appended = List.range' sh r.2.2.1.appended.length := by
        rw [happx]
        simp [List.length_range']
      have hgoal2 : r.2.2.1.headers.length = h0 + r.2.2.1.appended.length := by
        rw [hheadx, happlen]
      cases hb : r.2.2.2 with
      | false =>
        obtain ⟨hn1, hs1⟩ := hfail hb
        rw [if_pos (show ¬false = true by simp)]
        refine ⟨hgoal1, hgoal2, ?_⟩
        intro sm' hsm'
        simp only [Option.some.injEq] at hsm'
        subst hsm'
        refine ⟨by simp [hs1], by simp [hs1], by simp [hs1]⟩
      | true =>
        obtain ⟨hn1, hs1⟩ := hok hb
        rw [if_neg (show ¬¬(true = true) by simp)]
        by_cases hge : r.2.1 ≥ sm.endHeight
        · rw [if_pos hge]
          refine ⟨hgoal1, hgoal2, ?_⟩
          intro sm' hsm'
          simp only [Option.some.injEq] at hsm'
          subst hsm'
          refine ⟨by simp, ?_, ?_⟩
          · intro hcontra
            simp at hcontra
          · intro _
            refine ⟨?_, ?_, hsh, heh⟩
            · dsimp only
              rw [hn1, hnext, happlen]
              omega
            · dsimp only
              rw [← heh]
              exact hge
        · rw [if_neg hge]
          refine ⟨hgoal1, hgoal2, ?_⟩
          intro sm' hsm'
          simp only [Option.some.injEq] at hsm'
          subst hsm'
          refine ⟨by simp [hs1, hstate], ?_, ?_⟩
          · intro _
            refine ⟨?_, heh, hsh⟩
            dsimp only
            rw [hn1, hnext, happlen]
            omega
          · intro hcontra
            rw [hs1, hstate] at hcontra
            simp at hcontra
    | FinishedDL =>
      refine ⟨h1, h2, ?_⟩
      intro sm' hsm'
      simp at hsm'
    | End =>
      refine ⟨h1, h2, ?_⟩
      intro sm' hsm'
      simp at hsm'
    | Failure =>
      refine ⟨h1, h2, ?_⟩
      intro sm' hsm'
      simp at hsm'
    | IBD =>
      refine ⟨h1, h2, ?_⟩
      intro sm' hsm'
      simp at hsm'

/-- The invariant is preserved by every posted message. -/
lemma step_inv {V : Type} (env : Env V) {h0 sh eh : Nat} (st : CtlState V)
    (e : Ev) (h : DrainInv h0 sh eh st) : DrainInv h0 sh eh (step env st e) := by
  cases e with
  | put task p => exact putBlock_inv task p st h
  | proc => exact process_inv env st h

/-- The invariant is preserved by every sequence of posted messages. -/
lemma runEvents_inv {V : Type} (env : Env V) {h0 sh eh : Nat} :
    ∀ (evs : List Ev) (st : CtlState V), DrainInv h0 sh eh st →
      DrainInv h0 sh eh (runEvents env st evs) := by
  intro evs
  induction evs with
  | nil => intro st h; exact h
  | cons e evs ih =>
    intro st h
    exact ih (step env st e) (step_inv env st e h)

/-- A freshly initialized download round satisfies the invariant. -/
lemma DrainInv_init {V : Type} (st0 : CtlState V) (sm0 : StateMachine)
    (hsm : st0.sm = some sm0)
    (hstate : sm0.state = .DownloadingBlocks)
    (hnext : sm0.ppBlkHtNext = sm0.startheight)
    (happ : st0.appended = []) :
    DrainInv st0.headers.length sm0.startheight sm0.endHeight st0 := by
  refine ⟨by simp [happ], by simp [happ], ?_⟩
  intro sm hsm'
  rw [hsm] at hsm'
  simp only [Option.some.injEq] at hsm'
  subst hsm'
  refine ⟨by simp [hstate], ?_, ?_⟩
  · intro _
    exact ⟨by simp [happ, hnext], rfl, rfl⟩
  · intro hcontra
    rw [hstate] at hcontra
    simp at hcontra

/-- C1: over any sequence of `putBlock` and `process` messages, in any
arrival order, the heights the Controller appends to storage form exactly
the contiguous ascending run `startHeight, startHeight+1, …` — a header
for height `h` is appended only after all of `startHeight..h−1` — and the
stored header vector grows in lockstep with those appends. -/
theorem c1_monotonic_gap_free_appends {V : Type} (env : Env V) (st0 : CtlState V)
    (sm0 : StateMachine) (evs : List Ev)
    (hsm : st0.sm = some sm0)
    (hstate : sm0.state = .DownloadingBlocks)
    (hnext : sm0.ppBlkHtNext = sm0.startheight)
    (happ : st0.appended = []) :
    (runEvents env st0 evs).appended =
      List.range' sm0.startheight (runEvents env st0 evs).appended.length ∧
    (runEvents env st0 evs).headers.length =
      st0.headers.length + (runEvents env st0 evs).appended.length := by
  have h := runEvents_inv env evs st0
    (DrainInv_init st0 sm0 hsm hstate hnext happ)
  exact ⟨h.1, h.2.1⟩

/-- A concrete environment for the witnesses: a trivial verifier that
accepts every header and yields it back as the canonical raw header. -/
def envU : Env Unit := ⟨fun v h => (v, some h), 4, 5000⟩

/-- A concrete Controller state mid-round: heights 0 and 1 are awaited
(`startheight = 0`, `endHeight = 1`), nothing appended yet, one live task. -/
def stU : CtlState Unit :=
  { sm := some { state := .DownloadingBlocks, ht := 1, ppBlkHtNext := 0,
                 startheight := 0, endHeight := 1 },
    verifier := (), headers := [], tasks := [0] }

/-- Witness for C1: blocks 1 and 0 arrive out of order; the appended
heights come out as `[0, 1]` all the same. -/
theorem c1_monotonic_gap_free_appends_witness :
    (runEvents envU stU [.put 0 ⟨1, [11]⟩, .proc, .put 0 ⟨0, [10]⟩, .proc]).appended =
      List.range' 0
        (runEvents envU stU
          [.put 0 ⟨1, [11]⟩, .proc, .put 0 ⟨0, [10]⟩, .proc]).appended.length ∧
    (runEvents envU stU
        [.put 0 ⟨1, [11]⟩, .proc, .put 0 ⟨0, [10]⟩, .proc]).headers.length =
      stU.headers.length +
        (runEvents envU stU
          [.put 0 ⟨1, [11]⟩, .proc, .put 0 ⟨0, [10]⟩, .proc]).appended.length :=
  c1_monotonic_gap_free_appends envU stU
    { state := .DownloadingBlocks, ht := 1, ppBlkHtNext := 0,
      startheight := 0, endHeight := 1 }
    [.put 0 ⟨1, [11]⟩, .proc, .put 0 ⟨0, [10]⟩, .proc] rfl rfl rfl rfl

/-- C2 counterexample: with `startHeight = 0`, `endHeight = 1` (two blocks
to download), the arrival of block 0 alone already drives the machine to
FinishedDL — the transition fires on `ppBlkHtNext ≥ endHeight` — while the
header for `endHeight = 1` was never verified or appended: the storage
header count is 1 (tip 0), not `endHeight + 1`. -/
theorem c2_counterexample :
    ((runEvents envU stU [.put 0 ⟨0, [10]⟩, .proc]).sm.map StateMachine.state
        = some .FinishedDL) ∧
    ((runEvents envU stU [.put 0 ⟨0, [10]⟩, .proc]).sm.map StateMachine.endHeight
        = some 1) ∧
    (runEvents envU stU [.put 0 ⟨0, [10]⟩, .proc]).headers.length = 1 ∧
    1 ∉ (runEvents envU stU [.put 0 ⟨0, [10]⟩, .proc]).appended := by decide

/-- C2 (amended): whenever the state machine transitions from
DownloadingBlocks to FinishedDL, every height in
`startHeight..endHeight−1` has been verified and appended, so the storage
header count is at least `endHeight` (tip at least `endHeight−1`); the
transition fires as soon as `ppBlkHtNext ≥ endHeight`, so the final
header (height `endHeight` itself) may not yet be appended. The state
machine is then reset and re-enters at Begin. -/
theorem c2_amended_finishedDL {V : Type} (env : Env V) (st0 : CtlState V)
    (sm0 : StateMachine) (evs : List Ev) (sm' : StateMachine)
    (hsm : st0.sm = some sm0)
    (hstate : sm0.state = .DownloadingBlocks)
    (hnext : sm0.ppBlkHtNext = sm0.startheight)
    (happ : st0.appended = [])
    (hh0 : st0.headers.length = sm0.startheight)
    (hF : (runEvents env st0 evs).sm = some sm')
    (hFst : sm'.state = .FinishedDL) :
    (∀ h, sm0.startheight ≤ h → h < sm0.endHeight →
        h ∈ (runEvents env st0 evs).appended) ∧
    (runEvents env st0 evs).headers.length ≥ sm0.endHeight ∧
    (process env (runEvents env st0 evs)).sm = none ∧
    ((process env (process env (runEvents env st0 evs))).sm.map StateMachine.state
        = some .Begin) := by
  have hinv := runEvents_inv env evs st0
    (DrainInv_init st0 sm0 hsm hstate hnext happ)
  obtain ⟨h1, h2, h3⟩ := hinv
  obtain ⟨hn, hge, hsh', heh'⟩ := (h3 sm' hF).2.2 hFst
  have hproc1 : (process env (runEvents env st0 evs)).sm = none := by
    unfold process
    rw [hF]
    simp [hFst]
  refine ⟨?_, ?_, hproc1, ?_⟩
  · intro h hsh hlt
    rw [h1, List.mem_range'_1]
    omega
  · rw [h2, hh0]
    omega
  · generalize hmid : process env (runEvents env st0 evs) = stMid at hproc1
    unfold process
    rw [hproc1]
    simp

/-- Witness for C2 (amended) on the concrete two-block round: height 0 is
appended (header count reaches 1 ≥ endHeight = 1), the machine is reset
by the next `process`, and the one after re-enters at Begin. -/
theorem c2_amended_finishedDL_witness :
    0 ∈ (runEvents envU stU [.put 0 ⟨0, [10]⟩, .proc]).appended ∧
    (runEvents envU stU [.put 0 ⟨0, [10]⟩, .proc]).headers.length ≥ 1 ∧
    (process envU (runEvents envU stU [.put 0 ⟨0, [10]⟩, .proc])).sm = none ∧
    ((process envU (process envU (runEvents envU stU
        [.put 0 ⟨0, [10]⟩, .proc]))).sm.map StateMachine.state = some .Begin) := by
  have h := c2_amended_finishedDL envU stU
      { state := .DownloadingBlocks, ht := 1, ppBlkHtNext := 0,
        startheight := 0, endHeight := 1 }
      [.put 0 ⟨0, [10]⟩, .proc]
      { state := .FinishedDL, ht := 1, ppBlocks := [], ppBlkHtNext := 1,
        startheight := 0, endHeight := 1 }
      rfl rfl rfl rfl rfl (by decide) rfl
  exact ⟨h.1 0 (by decide) (by decide), h.2.1, h.2.2.1, h.2.2.2⟩
